import Mathlib

/-!
Verification development for the PiCN ICN forwarder.

This file gives a shallow embedding of two components of the repository:

* `TreeRoutingInformationBase.py` — the RIB prefix tree with `insert`,
  `ageing`, `collapse` and `build_fib`.
* `AutoconfigServerLayer.py` — the autoconfig server's `data_from_lower`
  dispatch and its three Interest handlers.

Machine conventions: name components (Python `bytes`) are `String`s,
`datetime` values are `Nat` seconds, a Python `dict` is an insertion-ordered
association list with unique keys (uniqueness holds for every dict built by
the embedded code), and a Python `None` timeout is `Option.none`.
-/

namespace PiCN

/-- One distance-vector entry of a RIB tree node: the Python dict item
`fid -> (distance, timeout)` of `_RIBTreeNode._distance_vector`. -/
structure DVEntry where
  fid : Nat
  dist : Nat
  timeout : Option Nat
deriving DecidableEq, Repr

/-- One tuple of the list returned by `_RIBTreeNode.collapse`:
`(name components, fid, distance, timeout)`. -/
structure Entry where
  name : List String
  fid : Nat
  dist : Nat
  timeout : Option Nat
deriving DecidableEq, Repr

/-- `ForwardingInformationBaseEntry` as constructed by
`TreeRoutingInformationBase.build_fib`: `(name, fid, static)`. -/
structure FibEntry where
  name : List String
  fid : Nat
  static : Bool
deriving DecidableEq, Repr

/-- The children of a `_RIBTreeNode`, in Python an insertion-ordered dict
`nc -> child`.  Encoded as a first-child / next-sibling forest: `node nc dv
children sibling` is a child node with name component `nc`, distance vector
`dv`, its own child dict `children`, and `sibling` the remaining entries of
the parent's dict. -/
inductive Forest where
  | nil : Forest
  | node (nc : String) (dv : List DVEntry) (children : Forest) (sibling : Forest) : Forest
deriving DecidableEq, Repr

/-- `len(self._children) == 0` for the child dict. -/
def isNilF : Forest → Bool
  | .nil => true
  | .node _ _ _ _ => false

/-- Python dict assignment `self._distance_vector[fid] = distance, timeout`:
replace the value in place if the key is present (position preserved),
otherwise append the new item at the end. -/
def dvSet (dv : List DVEntry) (fid dist : Nat) (t : Option Nat) : List DVEntry :=
  match dv with
  | [] => [⟨fid, dist, t⟩]
  | e :: es => if e.fid = fid then ⟨fid, dist, t⟩ :: es else e :: dvSet es fid dist t

/-- The chain of fresh nodes created by the second `while` loop of
`_RIBTreeNode.insert`: one node per remaining name component, the distance
vector set at the deepest one. -/
def chain (c : String) (rest : List String) (fid dist : Nat) (t : Option Nat) : Forest :=
  match rest with
  | [] => .node c [⟨fid, dist, t⟩] .nil .nil
  | c2 :: rest2 => .node c [] (chain c2 rest2 fid dist t) .nil

/-- The descend-then-create body of `_RIBTreeNode.insert`, acting on a child
dict: follow existing children while the next component matches
(`comps[0] in node._children`), then create the remaining chain (a Python
dict appends new keys at the end, hence the chain replaces the terminal
`nil`), and set the distance vector at the deepest node reached. -/
def insertIntoChildren : Forest → String → List String → Nat → Nat → Option Nat → Forest
  | .nil, c, rest, fid, dist, t => chain c rest fid dist t
  | .node nc dv ch sib, c, rest, fid, dist, t =>
    if nc = c then
      match rest with
      | [] => .node nc (dvSet dv fid dist t) ch sib
      | c2 :: rest2 => .node nc dv (insertIntoChildren ch c2 rest2 fid dist t) sib
    else
      .node nc dv ch (insertIntoChildren sib c rest fid dist t)

/-- The root `_RIBTreeNode` (the node with `_nc is None` and
`_parent is None`): its own distance vector and its child dict. -/
structure RIBRoot where
  dv : List DVEntry
  children : Forest
deriving DecidableEq, Repr

/-- The freshly constructed tree of `TreeRoutingInformationBase.__init__`. -/
def emptyRoot : RIBRoot := ⟨[], .nil⟩

/-- `_RIBTreeNode.insert` called on the root node (the only permitted call
site): descend / create along the name, then set
`node._distance_vector[fid] = distance, timeout` at the deepest node. -/
def insertRoot (r : RIBRoot) (name : List String) (fid dist : Nat) (t : Option Nat) : RIBRoot :=
  match name with
  | [] => ⟨dvSet r.dv fid dist t, r.children⟩
  | c :: rest => ⟨r.dv, insertIntoChildren r.children c rest fid dist t⟩

/-- The `ValueError` message of `_RIBTreeNode.insert`. -/
def rootInsertError : String :=
  "New RIB entries can only be inserted starting at the root node."

/-- `_RIBTreeNode.insert` including its guard: called on a node that has a
parent (`self._parent is not None`) it raises `ValueError` before touching
anything, so the tree is returned unchanged together with the error;
called on the root it performs the insertion.  The descending part never
hits the `ValueError` of `_add_child` because every created child is fresh
and parentless. -/
def nodeInsertTry (hasParent : Bool) (r : RIBRoot) (name : List String)
    (fid dist : Nat) (t : Option Nat) : RIBRoot × Option String :=
  if hasParent then (r, some rootInsertError)
  else (insertRoot r name fid dist t, none)

/-- Python `<` on the timeout components for the comparisons that
complete.  A comparison that mixes `None` with a `datetime` raises
`TypeError` in Python; this totalised form models it as `false` and backs
the total `collapse` model, whose uses (output-size bounds, determinism)
are insensitive to that branch — the raise itself is modelled by
`pyLtRaises` and the error-aware `collapseStepE` family below. -/
def optLt : Option Nat → Option Nat → Bool
  | some a, some b => a < b
  | _, _ => false

/-- Python tuple comparison `(d1, t1) < (d2, t2)` raises `TypeError`
exactly when the distances are equal (so the tuple comparison falls
through to the timeouts) and one timeout is `None` while the other is a
`datetime`. -/
def pyLtRaises (a b : Nat × Option Nat) : Bool :=
  a.1 = b.1 &&
    (match a.2, b.2 with
     | none, some _ => true
     | some _, none => true
     | _, _ => false)

/-- Python tuple comparison `(d1, t1) < (d2, t2)`. -/
def lexLt (a b : Nat × Option Nat) : Bool :=
  a.1 < b.1 || (a.1 = b.1 && optLt a.2 b.2)

/-- The scan of Python `min`: keep the current best on ties, so the first
minimal element wins. -/
def pyMinAux (best : Nat × Option Nat) : List (Nat × Option Nat) → Nat × Option Nat
  | [] => best
  | x :: xs => pyMinAux (if lexLt x best then x else best) xs

/-- `min(...)` over `(distance, timeout)` pairs as used on line 91 of
`TreeRoutingInformationBase.py`, in the totalised form (see `optLt`).
Only applied to non-empty lists (Python would raise on `[]`; the default
is unreachable). -/
def pyMinPr : List (Nat × Option Nat) → Nat × Option Nat
  | [] => (0, none)
  | x :: xs => pyMinAux x xs

/-- The scan of Python `min` with its error behaviour: `none` as soon as a
comparison along the scan raises `TypeError` (see `pyLtRaises`). -/
def pyMinScanE (best : Nat × Option Nat) :
    List (Nat × Option Nat) → Option (Nat × Option Nat)
  | [] => some best
  | x :: xs =>
    if pyLtRaises x best then none
    else pyMinScanE (if lexLt x best then x else best) xs

/-- The line-91 `min` with its error behaviour: `none` models the
`TypeError` raised on a `None`-with-`datetime` tie (and the `ValueError`
on an empty list, unreachable there). -/
def pyMinE : List (Nat × Option Nat) → Option (Nat × Option Nat)
  | [] => none
  | x :: xs => pyMinScanE x xs

/-- The scan of `_RIBTreeNode._get_best_fid`:
`min(self._distance_vector.items(), key=lambda x: x[1][0])` — the first
item with minimal distance. -/
def bestDVE (best : DVEntry) : List DVEntry → DVEntry
  | [] => best
  | e :: es => bestDVE (if e.dist < best.dist then e else best) es

/-- The entries a node contributes for its own name `nclist`: with
`collapse_reduce_to_shortest` the single `_get_best_fid()` tuple, otherwise
one tuple per distance-vector item; nothing if the vector is empty. -/
def dvEntries (nclist : List String) (shortest : Bool) (dv : List DVEntry) : List Entry :=
  match dv with
  | [] => []
  | e :: es =>
    if shortest then
      [⟨nclist, (bestDVE e es).fid, (bestDVE e es).dist, (bestDVE e es).timeout⟩]
    else
      (e :: es).map fun d => ⟨nclist, d.fid, d.dist, d.timeout⟩

/-- The `ch_res` list of `_RIBTreeNode.collapse` for a node with children:
the children's collapsed entries with the node's own component(s) prepended
(`c[0].insert(0, self._nc)`), followed by the node's own distance-vector
entries. -/
def candidatesOf (nclist : List String) (shortest : Bool) (dv : List DVEntry)
    (chres0 : List Entry) : List Entry :=
  chres0.map (fun e => ⟨nclist ++ e.name, e.fid, e.dist, e.timeout⟩)
    ++ dvEntries nclist shortest dv

/-- The `subfids` set of `_RIBTreeNode.collapse`: the distinct face ids of
the candidate list (only its cardinality and sole member are ever used). -/
def distinctFids (es : List Entry) : List Nat :=
  es.foldl (fun acc e => if e.fid ∈ acc then acc else acc ++ [e.fid]) []

/-- The body of `_RIBTreeNode.collapse` for one node, parameterised by the
node's own name list `nclist` (`[]` at the root, `[nc]` elsewhere), whether
its child dict is empty, and the concatenated recursive results `chres0`.
Childless: emit the node's own entries.  With children: build the candidate
list; if it holds more than one entry but only one distinct face id, reduce
it to the single tuple `(nclist, fid, min (distance, timeout))`; otherwise
emit the candidates unchanged. -/
def collapseStep (nclist : List String) (shortest : Bool) (dv : List DVEntry)
    (childrenEmpty : Bool) (chres0 : List Entry) : List Entry :=
  if childrenEmpty then
    dvEntries nclist shortest dv
  else
    let cand := candidatesOf nclist shortest dv chres0
    match distinctFids cand with
    | [f] =>
      if 1 < cand.length then
        let p := pyMinPr ((cand.filter (fun e => e.fid = f)).map fun e => (e.dist, e.timeout))
        [⟨nclist, f, p.1, p.2⟩]
      else cand
    | _ => cand

/-- `collapse()` of every node of a child dict, results concatenated in
dict order (the loop `for child in self._children.values()`). -/
def collapseF (shortest : Bool) : Forest → List Entry
  | .nil => []
  | .node c dv ch sib =>
    collapseStep [c] shortest dv (isNilF ch) (collapseF shortest ch)
      ++ collapseF shortest sib

/-- `collapse()` on the root node (where `self._nc is None`, so `nclist`
is empty and no component is prepended to the children's results). -/
def collapseRoot (shortest : Bool) (r : RIBRoot) : List Entry :=
  collapseStep [] shortest r.dv (isNilF r.children) (collapseF shortest r.children)

/-- `collapseStep` with the `TypeError` of the line-91 `min` propagated:
`none` when the aggregation `min` raises, in which case the whole
`collapse()` call crashes and emits nothing. -/
def collapseStepE (nclist : List String) (shortest : Bool) (dv : List DVEntry)
    (childrenEmpty : Bool) (chres0 : List Entry) : Option (List Entry) :=
  if childrenEmpty then
    some (dvEntries nclist shortest dv)
  else
    let cand := candidatesOf nclist shortest dv chres0
    match distinctFids cand with
    | [f] =>
      if 1 < cand.length then
        match pyMinE ((cand.filter (fun e => e.fid = f)).map fun e => (e.dist, e.timeout)) with
        | none => none
        | some p => some [⟨nclist, f, p.1, p.2⟩]
      else some cand
    | _ => some cand

/-- Error-aware `collapse()` over a child dict: a raise in any child (the
children are collapsed in dict order, each fully before the next) aborts
the whole call. -/
def collapseFE (shortest : Bool) : Forest → Option (List Entry)
  | .nil => some []
  | .node c dv ch sib =>
    match collapseFE shortest ch with
    | none => none
    | some chres =>
      match collapseStepE [c] shortest dv (isNilF ch) chres with
      | none => none
      | some mine =>
        match collapseFE shortest sib with
        | none => none
        | some rest => some (mine ++ rest)

/-- Error-aware `collapse()` on the root node. -/
def collapseRootE (shortest : Bool) (r : RIBRoot) : Option (List Entry) :=
  match collapseFE shortest r.children with
  | none => none
  | some chres => collapseStepE [] shortest r.dv (isNilF r.children) chres

/-- The distance-vector filtering of `_RIBTreeNode.ageing`: delete every
entry whose timeout is not `None` and `<= now`. -/
def ageDV (now : Nat) (dv : List DVEntry) : List DVEntry :=
  dv.filter fun e =>
    match e.timeout with
    | none => true
    | some t => decide (now < t)

/-- `_RIBTreeNode.ageing` over a child dict: each node first ages its own
children, then filters its distance vector, and finally unlinks itself from
the parent dict (`del self._parent._children[self._nc]`) if both are empty;
the siblings are aged independently. -/
def ageF (now : Nat) : Forest → Forest
  | .nil => .nil
  | .node nc dv ch sib =>
    let ch' := ageF now ch
    let dv' := ageDV now dv
    let sib' := ageF now sib
    if dv'.isEmpty && isNilF ch' then sib' else .node nc dv' ch' sib'

/-- `ageing` started at the root: the root ages its children and filters its
own vector but is never unlinked (`self._parent is not None` fails). -/
def ageRoot (now : Nat) (r : RIBRoot) : RIBRoot :=
  ⟨ageDV now r.dv, ageF now r.children⟩

/-- `TreeRoutingInformationBase`: the stored tree plus the
`shortest_only` flag passed to every node. -/
structure TreeRIB where
  shortest : Bool
  root : RIBRoot
deriving DecidableEq, Repr

/-- `TreeRoutingInformationBase.build_fib`: iterate the collapsed tree and
emit `ForwardingInformationBaseEntry(name, fid, static=False)` per tuple.
The method only reads the tree, so the state is returned unchanged. -/
def buildFib (t : TreeRIB) : List FibEntry × TreeRIB :=
  ((collapseRoot t.shortest t.root).map fun e => ⟨e.name, e.fid, false⟩, t)

/-- `a` is a strict prefix of `b`: a proper initial segment, componentwise. -/
def strictPfxOf (a b : List String) : Bool :=
  a.isPrefixOf b && a ≠ b

/-- The prefix-minimality property claimed of `collapse()` output: no entry's
name is a strict prefix of another entry's name carrying the same face id. -/
def pfxMinimal (es : List Entry) : Bool :=
  es.all fun e1 => es.all fun e2 => !(strictPfxOf e1.name e2.name && e1.fid = e2.fid)

/-- Modelled from the spec: the `Name` class of `PiCN.Packets` (not under
`src/`).  "An ordered sequence of opaque byte-string components." -/
def NameC : Type := List String
deriving DecidableEq, Repr

/-- Modelled from the spec: `Name.is_prefix_of` of `PiCN.Packets.Name` (not
under `src/`).  "`A` is a prefix of `B` iff `|A| <= |B|` and `A[i] = B[i]`
for all `i < |A|`." -/
def nameLeads (a b : NameC) : Bool :=
  List.isPrefixOf a b

/-- Concatenation of a list of strings (Python `str` accumulation). -/
def strConcat : List String → String
  | [] => ""
  | s :: rest => s ++ strConcat rest

/-- Modelled from the spec: `Name.to_string` of `PiCN.Packets.Name` (not
under `src/`).  The autoconfig manifest lines carry names in the usual
slash-separated textual form. -/
def nameStr (n : NameC) : String :=
  strConcat (n.map fun c => "/" ++ c)

/-- `NackReason` members used by the autoconfig server (the enum lives in
`PiCN.Packets`, not under `src/`; the members are named in the source and
the spec). -/
inductive NackKind where
  | noContent
  | noRoute
  | dup
deriving DecidableEq, Repr

/-- Modelled from the spec: the `Packet` variants of `PiCN.Packets` (not
under `src/`).  "A tagged variant with kinds Interest, Content, Nack.
Every packet carries a `name`.  Content additionally carries an opaque
payload.  Nack carries a `reason` enum and optionally the originating
Interest."  `Content(name)` with no payload set is `payload = none`; the
attached Interest is recorded by its name. -/
inductive Packet where
  | interest (name : NameC)
  | content (name : NameC) (payload : Option String)
  | nack (name : NameC) (reason : NackKind) (orig : Option NameC)
deriving DecidableEq, Repr

/-- `packet.name`. -/
def Packet.nm : Packet → NameC
  | .interest n => n
  | .content n _ => n
  | .nack n _ _ => n

/-- `_AUTOCONFIG_PREFIX = Name('/autoconfig')`. -/
def acPfx : NameC := ["autoconfig"]

/-- `_AUTOCONFIG_SERVICE_LIST_PREFIX = Name('/autoconfig/services')`. -/
def acServicesPfx : NameC := ["autoconfig", "services"]

/-- `_AUTOCONFIG_SERVICE_REGISTRATION_PREFIX = Name('/autoconfig/service')`. -/
def acSrvRegPfx : NameC := ["autoconfig", "service"]

/-- One entry of `AutoconfigServerLayer._known_services`:
`(service name, (host, port), lease deadline)`. -/
structure SrvEntry where
  srv : NameC
  addr : String × Nat
  deadline : Nat
deriving DecidableEq, Repr

/-- The mutable state of `AutoconfigServerLayer` touched by
`data_from_lower`: the FIB handle, the known-service list, the configured
registration prefixes, the announced address and link port, the
`interest_to_app` flag, and — modelled from the spec, because
`UDP4LinkLayer` is not under `src/` — the link layer's address-to-face-id
table used by `get_or_create_fid`. -/
structure AcState where
  announceAddr : String
  linkPort : Nat
  interestToApp : Bool
  fib : List FibEntry
  known : List SrvEntry
  regPfxs : List NameC
  faceTable : List ((String × Nat) × Nat)
deriving DecidableEq, Repr

/-- `_service_registration_timeout = timedelta(hours=1)`, in seconds. -/
def regLeaseSecs : Nat := 3600

/-- Python `str.split(':')`: cut the character list at every colon. -/
def splitCols : List Char → List (List Char)
  | [] => [[]]
  | c :: rest =>
    if c = ':' then [] :: splitCols rest
    else
      match splitCols rest with
      | [] => [[c]]
      | g :: gs => (c :: g) :: gs

/-- Python `int(...)` on a decimal digit string: `none` on an empty or
non-digit string (where Python raises `ValueError`). -/
def natOfDigits (cs : List Char) : Option Nat :=
  if cs = [] then none
  else
    cs.foldl
      (fun acc c =>
        match acc with
        | none => none
        | some n => if c.isDigit then some (n * 10 + (c.toNat - 48)) else none)
      (some 0)

/-- The parsing of the `<remote>` component in
`_handle_service_registration`: `host, port = remote.split(':')` followed by
`int(port)`.  `none` models the `ValueError` Python raises when the
component does not split into exactly two parts or the port is not a
number. -/
def parseRemote (s : String) : Option (String × Nat) :=
  match splitCols s.data with
  | [h, p] => (natOfDigits p).map fun pn => (String.mk h, pn)
  | _ => none

/-- Modelled from the spec: `get_or_create_fid` of the link layer (not under
`src/`).  "Assigns each remote peer a stable integer face id" — reuse the
face id already mapped to the address, otherwise allocate a fresh one and
record it.  Returns the face id and the updated table. -/
def getOrCreateFid (tbl : List ((String × Nat) × Nat)) (addr : String × Nat) :
    Nat × List ((String × Nat) × Nat) :=
  match tbl.find? (fun e => e.1 = addr) with
  | some e => (e.2, tbl)
  | none =>
    let fresh := (tbl.map (fun e => e.2)).foldl max 0 + 1
    (fresh, tbl ++ [(addr, fresh)])

/-- Modelled from the spec: `add_fib_entry` of
`BaseForwardingInformationBase` (not under `src/`).  "insert(prefix, face,
static)" under the invariant "at most one entry per (prefix, face_id)
pair": an existing entry for the same pair is replaced, otherwise the new
entry is appended. -/
def addFibEntry (fib : List FibEntry) (name : NameC) (fid : Nat) (isStatic : Bool) :
    List FibEntry :=
  if fib.any (fun e => e.name = name && e.fid = fid) then
    fib.map fun e => if e.name = name && e.fid = fid then ⟨name, fid, isStatic⟩ else e
  else
    fib ++ [⟨name, fid, isStatic⟩]

/-- `AutoconfigServerLayer._handle_autoconfig`: a Content whose payload is
the line `<announce_addr>:<port>`, one `r:` line per FIB entry, and one
`p:` line per registration prefix. -/
def handleAutoconfig (s : AcState) (iname : NameC) : Packet :=
  let base := s.announceAddr ++ ":" ++ toString s.linkPort ++ "\n"
  let rPart := strConcat (s.fib.map fun e => "r:" ++ nameStr e.name ++ "\n")
  let pPart := strConcat (s.regPfxs.map fun p => "p:" ++ nameStr p ++ "\n")
  .content iname (some (base ++ rPart ++ pPart))

/-- The accumulation loop of `_handle_service_list`: skip services whose
deadline has passed (`now > timeout`), keep those matched by the requested
prefix (`len(srvprefix) == 0 or srvprefix.is_prefix_of(service)`), one
`to_string` line each. -/
def serviceLines (now : Nat) (pfxArg : NameC) : List SrvEntry → String
  | [] => ""
  | e :: es =>
    (if now > e.deadline then ""
     else if pfxArg.length = 0 || nameLeads pfxArg e.srv then nameStr e.srv ++ "\n"
     else "")
      ++ serviceLines now pfxArg es

/-- `AutoconfigServerLayer._handle_service_list`: the requested prefix is
the name with the two components of `/autoconfig/services` stripped; reply
with the accumulated listing if non-empty, else `Nack(NO_CONTENT)`. -/
def handleServiceList (s : AcState) (now : Nat) (iname : NameC) : Packet :=
  let pfxArg : NameC := iname.drop 2
  let c := serviceLines now pfxArg s.known
  if 0 < c.length then .content iname (some c)
  else .nack iname .noContent none

/-- Outcome of the known-service scan loop in
`_handle_service_registration`. -/
inductive RegScan where
  | dup
  | updated (ks : List SrvEntry)
  | absent
deriving DecidableEq, Repr

/-- The loop `for i in range(len(self._known_services))` of
`_handle_service_registration`: at the first entry whose service name
equals `srvname`, either report a duplicate (different address) or refresh
that entry's deadline to `now + 1h` and stop; report absence when no entry
matches. -/
def scanServices (srvname : NameC) (srvaddr : String × Nat) (now : Nat) :
    List SrvEntry → RegScan
  | [] => .absent
  | e :: es =>
    if e.srv = srvname then
      if e.addr ≠ srvaddr then .dup
      else .updated (⟨e.srv, e.addr, now + regLeaseSecs⟩ :: es)
    else
      match scanServices srvname srvaddr now es with
      | .dup => .dup
      | .updated r => .updated (e :: r)
      | .absent => .absent

/-- `AutoconfigServerLayer._handle_service_registration`.  `none` models the
uncaught Python exception on a name without a third component or with an
unparseable `<remote>`.  Otherwise: `Nack(NO_ROUTE)` with the Interest
attached when no registration prefix covers the service name;
`Nack(DUPLICATE)` with the Interest attached when the service is known at a
different address; else allocate or reuse a static face, add a static FIB
entry and reply with an empty Content.  Note the source appends no
known-service entry for a previously unknown service: only an existing
same-address entry has its deadline refreshed. -/
def handleServiceRegistration (s : AcState) (now : Nat) (iname : NameC) :
    Option (AcState × Packet) :=
  match iname.get? 2 with
  | none => none
  | some remote =>
    match parseRemote remote with
    | none => none
    | some srvaddr =>
      let srvname : NameC := iname.drop 3
      if (s.regPfxs.filter fun p => p.length = 0 || nameLeads p srvname).length = 0 then
        some (s, .nack iname .noRoute (some iname))
      else
        match scanServices srvname srvaddr now s.known with
        | .dup => some (s, .nack iname .dup (some iname))
        | .updated ks =>
          let fr := getOrCreateFid s.faceTable srvaddr
          some ({ s with known := ks, faceTable := fr.2,
                         fib := addFibEntry s.fib srvname fr.1 true },
                .content iname none)
        | .absent =>
          let fr := getOrCreateFid s.faceTable srvaddr
          some ({ s with faceTable := fr.2,
                         fib := addFibEntry s.fib srvname fr.1 true },
                .content iname none)

/-- Destination queue of an emitted `(face id, packet)` pair. -/
inductive Dest where
  | higherQ
  | lowerQ
deriving DecidableEq, Repr

/-- `AutoconfigServerLayer.data_from_lower` on a well-formed
`[face id, packet]` message: non-autoconfig names are re-enqueued unchanged
(to the higher queue with `interest_to_app`, else back down); Interests
then run through the three autoconfig branches in order, each reply going
to the lower queue.  The result is the new state and the emitted
`(destination, face id, packet)` list, `none` modelling the uncaught
exception of a malformed registration name. -/
def dataFromLower (s : AcState) (now : Nat) (fid : Nat) (pkt : Packet) :
    Option (AcState × List (Dest × Nat × Packet)) :=
  let pass : List (Dest × Nat × Packet) :=
    if ¬ nameLeads acPfx pkt.nm then
      [(if s.interestToApp then .higherQ else .lowerQ, fid, pkt)]
    else []
  match pkt with
  | .interest iname =>
    let o1 : List (Dest × Nat × Packet) :=
      if acPfx = iname then [(.lowerQ, fid, handleAutoconfig s iname)] else []
    let o2 : List (Dest × Nat × Packet) :=
      if nameLeads acServicesPfx iname then [(.lowerQ, fid, handleServiceList s now iname)]
      else []
    if nameLeads acSrvRegPfx iname then
      match handleServiceRegistration s now iname with
      | none => none
      | some (s', reply) => some (s', pass ++ o1 ++ o2 ++ [(.lowerQ, fid, reply)])
    else
      some (s, pass ++ o1 ++ o2)
  | _ => some (s, pass)

/-! Invariant predicates and concrete instances used by the theorems. -/

/-- Every entry of a distance vector survives `now`: no timeout `<= now`. -/
def dvFresh (now : Nat) (dv : List DVEntry) : Bool :=
  dv.all fun e =>
    match e.timeout with
    | none => true
    | some t => decide (now < t)

/-- `dvFresh` at every node of a forest. -/
def freshF (now : Nat) : Forest → Bool
  | .nil => true
  | .node _ dv ch sib => dvFresh now dv && freshF now ch && freshF now sib

/-- No node of the forest has both an empty distance vector and no
children (the shape `ageing` is claimed to restore). -/
def prunedF : Forest → Bool
  | .nil => true
  | .node _ dv ch sib => !(dv.isEmpty && isNilF ch) && prunedF ch && prunedF sib

/-- Every distance-vector entry of the vector carries face id `f`. -/
def allFidDV (f : Nat) (dv : List DVEntry) : Bool :=
  dv.all fun e => e.fid = f

/-- Every distance-vector entry anywhere in the forest carries face id `f`. -/
def allFidF (f : Nat) : Forest → Bool
  | .nil => true
  | .node _ dv ch sib => allFidDV f dv && allFidF f ch && allFidF f sib

/-- Pairwise-distinct naturals (the dict-key property). -/
def nodupNats : List Nat → Bool
  | [] => true
  | x :: xs => !(xs.contains x) && nodupNats xs

/-- The face ids of a distance vector are pairwise distinct (it is a
Python dict keyed by face id). -/
def dvKeysU (dv : List DVEntry) : Bool :=
  nodupNats (dv.map fun e => e.fid)

/-- `dvKeysU` at every node of a forest. -/
def dvUF : Forest → Bool
  | .nil => true
  | .node _ dv ch sib => dvKeysU dv && dvUF ch && dvUF sib

/-- A sequence of `insert` calls, all with face id `f`, applied to a fresh
`TreeRoutingInformationBase` tree. -/
def applyInserts (f : Nat) (l : List (List String × Nat × Option Nat)) : RIBRoot :=
  l.foldl (fun r i => insertRoot r i.1 f i.2.1 i.2.2) emptyRoot

/-- First known-service entry for a service name, mirroring how the
registration loop scans the list (the list is keyed by service name, so it
is the only entry for that name). -/
def lookupSrv (ks : List SrvEntry) (srvname : NameC) : Option SrvEntry :=
  ks.find? fun e => e.srv = srvname

/-- Modelled from the spec: the service-list reply as §4.6 words it —
"Return Content listing every non-expired known service whose name begins
with `<prefix>`, one name per line.  If none, return Nack(NO_CONTENT)."
Stated with an explicit filter for comparison against the source handler. -/
def serviceListSpecReply (s : AcState) (now : Nat) (iname : NameC) : Packet :=
  let pfxArg : NameC := iname.drop 2
  let ms := s.known.filter fun e =>
    decide (now ≤ e.deadline) && (pfxArg.length = 0 || nameLeads pfxArg e.srv)
  if ms = [] then .nack iname .noContent none
  else .content iname (some (strConcat (ms.map fun e => nameStr e.srv ++ "\n")))

/-- RIB after inserting `(/a/b, F1, 1)` and `(/a/c, F1, 1)` (scenario 6 of
the spec). -/
def rib2 : RIBRoot :=
  insertRoot (insertRoot emptyRoot ["a", "b"] 1 1 none) ["a", "c"] 1 1 none

/-- RIB after inserting `(/a/b, F1, 1)`, `(/a/c, F2, 1)` and `(/a, F1, 1)`:
the prefix-minimality counterexample. -/
def rib3 : RIBRoot :=
  insertRoot (insertRoot (insertRoot emptyRoot ["a", "b"] 1 1 none) ["a", "c"] 2 1 none)
    ["a"] 1 1 none

/-- RIB after inserting `(/a/b, F1, 1, None)` and `(/a/c, F1, 1, t)`: a
single face with equal distances and one untimed and one dated route, on
which the line-91 `min` raises `TypeError`. -/
def ribMix : RIBRoot :=
  insertRoot (insertRoot emptyRoot ["a", "b"] 1 1 none) ["a", "c"] 1 1 (some 7)

/-- A server state with one registration prefix `/test` and nothing else. -/
def exSrvState : AcState :=
  { announceAddr := "127.0.0.1", linkPort := 9000, interestToApp := false,
    fib := [], known := [], regPfxs := [["test"]], faceTable := [] }

/-- A fresh service registration name:
`/autoconfig/service/127.0.0.1:9000/test/srv`. -/
def exRegName : NameC := ["autoconfig", "service", "127.0.0.1:9000", "test", "srv"]

/-- `exSrvState` with no registration prefix covering `/test/srv`. -/
def exNoRouteState : AcState := { exSrvState with regPfxs := [["other"]] }

/-- `exSrvState` already knowing `/test/srv` at a different address. -/
def exDupState : AcState :=
  { exSrvState with known := [⟨["test", "srv"], ("10.0.0.1", 7), 999⟩] }

/-- A server state with two known services, one of them expired. -/
def exListState : AcState :=
  { exSrvState with
    known := [⟨["test", "x"], ("h", 1), 100⟩, ⟨["test", "y"], ("h", 2), 3⟩] }

/-! Theorems. -/

/-- A name is a prefix of itself. -/
theorem nameLeads_self (n : NameC) : nameLeads n n = true := by
  simp [nameLeads]

/-- Dropping the second component of a two-component prefix keeps the
prefix relation: if `[a, b]` leads `n`, so does `[a]`. -/
theorem nameLeads_head (a b : String) (n : NameC) (h : nameLeads [a, b] n = true) :
    nameLeads [a] n = true := by
  cases n with
  | nil => simp [nameLeads, List.isPrefixOf] at h
  | cons x xs => simp_all [nameLeads, List.isPrefixOf]

/-- C6: a well-formed `(face id, packet)` pair from below whose name is not
under `/autoconfig` is re-emitted exactly once and unchanged — to the
higher queue when `interest_to_app` is set, else back to the lower queue —
with the server state untouched. -/
theorem autoconfig_pass_through (s : AcState) (now fid : Nat) (pkt : Packet)
    (h : nameLeads acPfx pkt.nm = false) :
    dataFromLower s now fid pkt =
      some (s, [(if s.interestToApp then Dest.higherQ else Dest.lowerQ, fid, pkt)]) := by
  cases pkt with
  | interest iname =>
    have h' : nameLeads acPfx iname = false := h
    have h1 : acPfx ≠ iname := by
      intro he
      rw [he] at h'
      rw [nameLeads_self] at h'
      exact Bool.true_eq_false.mp h'
    have h'' : nameLeads ["autoconfig"] iname = false := h'
    have h2 : nameLeads acServicesPfx iname = false := by
      cases hx : nameLeads acServicesPfx iname
      · rfl
      · exact absurd (nameLeads_head _ _ _ hx) (by simp [h''])
    have h3 : nameLeads acSrvRegPfx iname = false := by
      cases hx : nameLeads acSrvRegPfx iname
      · rfl
      · exact absurd (nameLeads_head _ _ _ hx) (by simp [h''])
    simp [dataFromLower, Packet.nm, h', h1, h2, h3]
  | content n payload => simp [dataFromLower, Packet.nm] at h ⊢; simp [h]
  | nack n reason orig => simp [dataFromLower, Packet.nm] at h ⊢; simp [h]

/-- Witness for C6: the Interest `/foo/bar` on face 42 passes through the
layer unchanged. -/
theorem autoconfig_pass_through_witness :
    nameLeads acPfx (Packet.interest ["foo", "bar"]).nm = false ∧
    dataFromLower exListState 5 42 (.interest ["foo", "bar"]) =
      some (exListState,
        [(if exListState.interestToApp then Dest.higherQ else Dest.lowerQ, 42,
          Packet.interest ["foo", "bar"])]) :=
  ⟨by decide, autoconfig_pass_through exListState 5 42 (.interest ["foo", "bar"]) (by decide)⟩

/-- C10: a Content or Nack from below whose name lies under `/autoconfig`
is silently consumed: nothing is enqueued on either queue and the state is
unchanged. -/
theorem autoconfig_nondata_consumed (s : AcState) (now fid : Nat) (n : NameC)
    (payload : Option String) (reason : NackKind) (orig : Option NameC)
    (h : nameLeads acPfx n = true) :
    dataFromLower s now fid (.content n payload) = some (s, []) ∧
    dataFromLower s now fid (.nack n reason orig) = some (s, []) := by
  constructor <;> simp [dataFromLower, Packet.nm, h]

/-- Witness for C10: a Content and a Nack for `/autoconfig/services` are
both consumed without output. -/
theorem autoconfig_nondata_consumed_witness :
    nameLeads acPfx ["autoconfig", "services"] = true ∧
    dataFromLower exListState 5 42 (.content ["autoconfig", "services"] (some "x")) =
      some (exListState, []) ∧
    dataFromLower exListState 5 42 (.nack ["autoconfig", "services"] .noContent none) =
      some (exListState, []) :=
  ⟨by decide,
   (autoconfig_nondata_consumed exListState 5 42 ["autoconfig", "services"] (some "x")
      .noContent none (by decide)).1,
   (autoconfig_nondata_consumed exListState 5 42 ["autoconfig", "services"] (some "x")
      .noContent none (by decide)).2⟩

/-- C9: `insert` on a node that has a parent raises the `ValueError` and
leaves the tree unchanged; on the root it performs the insertion. -/
theorem insert_only_at_root (r : RIBRoot) (name : List String) (fid dist : Nat)
    (t : Option Nat) :
    nodeInsertTry true r name fid dist t = (r, some rootInsertError) ∧
    nodeInsertTry false r name fid dist t = (insertRoot r name fid dist t, none) :=
  ⟨rfl, rfl⟩

/-- C7: with no intervening RIB change, a second `build_fib()` yields the
same FIB entry list in the same order (the method only reads the tree, and
`collapse` is deterministic over the insertion-ordered child dicts). -/
theorem build_fib_idempotent (t : TreeRIB) :
    (buildFib (buildFib t).2).1 = (buildFib t).1 :=
  rfl

/-- C1 counterexample: after inserting `(/a/b, F1, 1)`, `(/a/c, F2, 1)` and
`(/a, F1, 1)`, `collapse()` returns both `(/a, F1)` and `(/a/b, F1)` — an
entry whose name is a strict prefix of another entry with the same face —
because the mixed-face candidate set at `/a` suppresses aggregation. -/
theorem collapse_not_minimal_cex : pfxMinimal (collapseRoot true rib3) = false := by
  decide

/-- C3: evaluating the registration handler on a fresh service
(`/autoconfig/service/127.0.0.1:9000/test/srv`, empty known-service list,
registration prefix `/test`): a static face is allocated, a static FIB
entry `( /test/srv, face )` is added and an empty Content ACK is returned,
but the known-service list stays empty — no lease entry is created for the
previously unknown service, contradicting the documented upsert. -/
theorem registration_ack_without_lease :
    (handleServiceRegistration exSrvState 5 exRegName).map (fun r => r.2) =
      some (.content exRegName none) ∧
    (handleServiceRegistration exSrvState 5 exRegName).map (fun r => r.1.fib) =
      some [⟨["test", "srv"], 1, true⟩] ∧
    (handleServiceRegistration exSrvState 5 exRegName).map (fun r => r.1.faceTable) =
      some [(("127.0.0.1", 9000), 1)] ∧
    (handleServiceRegistration exSrvState 5 exRegName).map (fun r => r.1.known) =
      some [] := by
  refine ⟨by decide, by decide, by decide, by decide⟩

/-- The filtered distance vector contains no expired entry. -/
theorem dvFresh_ageDV (now : Nat) (dv : List DVEntry) : dvFresh now (ageDV now dv) = true := by
  rw [dvFresh, List.all_eq_true]
  intro e he
  simp only [ageDV] at he
  exact (List.mem_filter.mp he).2

/-- After ageing, every node of the forest is expiry-free and no node is
left with an empty distance vector and no children. -/
theorem ageF_fresh_pruned (now : Nat) (f : Forest) :
    freshF now (ageF now f) = true ∧ prunedF (ageF now f) = true := by
  induction f with
  | nil => exact ⟨rfl, rfl⟩
  | node nc dv ch sib ihch ihsib =>
    simp only [ageF]
    by_cases hrm : ((ageDV now dv).isEmpty && isNilF (ageF now ch)) = true
    · simp only [hrm, if_true]
      exact ihsib
    · simp only [hrm, if_false]
      have hrm' : ((ageDV now dv).isEmpty && isNilF (ageF now ch)) = false :=
        Bool.eq_false_iff.mpr hrm
      constructor
      · simp [freshF, dvFresh_ageDV, ihch.1, ihsib.1]
      · simp [prunedF, hrm', ihch.2, ihsib.2]

/-- C5: after `ageing(now)` no distance-vector entry anywhere in the tree
has a timeout `<= now`, and no non-root node with an empty distance vector
and no children remains linked (removal cascades upward). -/
theorem ageing_fresh_and_pruned (now : Nat) (r : RIBRoot) :
    dvFresh now (ageRoot now r).dv = true ∧
    freshF now (ageRoot now r).children = true ∧
    prunedF (ageRoot now r).children = true :=
  ⟨dvFresh_ageDV now r.dv, (ageF_fresh_pruned now r.children).1,
    (ageF_fresh_pruned now r.children).2⟩

/-- The accumulation loop of `_handle_service_list` produces exactly the
concatenated lines of the filtered service list. -/
theorem serviceLines_filter (now : Nat) (pfx : NameC) (ks : List SrvEntry) :
    serviceLines now pfx ks =
      strConcat ((ks.filter fun e =>
          decide (now ≤ e.deadline) && (pfx.length = 0 || nameLeads pfx e.srv)).map
        fun e => nameStr e.srv ++ "\n") := by
  induction ks with
  | nil => rfl
  | cons e es ih =>
    simp only [serviceLines, List.filter_cons]
    by_cases h1 : now ≤ e.deadline
    · have hskip : ¬ now > e.deadline := Nat.not_lt.mpr h1
      have hd : decide (now ≤ e.deadline) = true := by simp [h1]
      rw [if_neg hskip, hd, Bool.true_and]
      by_cases h2 : (decide (pfx.length = 0) || nameLeads pfx e.srv) = true
      · rw [if_pos h2, if_pos h2, List.map_cons]
        simp only [strConcat, ih]
      · rw [if_neg h2, if_neg h2, ih, String.empty_append]
    · have hskip : now > e.deadline := Nat.not_le.mp h1
      have h1' : decide (now ≤ e.deadline) = false := by simp [h1]
      rw [if_pos hskip, h1', Bool.false_and]
      simp only [Bool.false_eq_true, if_false, ih, String.empty_append]

/-- A non-empty service listing has positive length (every line ends in a
newline character). -/
theorem lines_len_pos (e : SrvEntry) (ms : List SrvEntry) :
    0 < (strConcat ((e :: ms).map fun x => nameStr x.srv ++ "\n")).length := by
  simp only [List.map_cons, strConcat, String.length_append]
  have hn : ("\n" : String).length = 1 := rfl
  omega

/-- C8: the service-list handler replies with a Content listing exactly the
non-expired known services matched by the requested prefix, one name per
line, and with `Nack(NO_CONTENT)` when there is none. -/
theorem handle_service_list_spec (s : AcState) (now : Nat) (iname : NameC)
    (h : nameLeads acServicesPfx iname = true) :
    handleServiceList s now iname = serviceListSpecReply s now iname := by
  simp only [handleServiceList, serviceListSpecReply, serviceLines_filter]
  cases hms : s.known.filter fun e =>
      decide (now ≤ e.deadline) && ((iname.drop 2).length = 0 || nameLeads (iname.drop 2) e.srv) with
  | nil => simp [strConcat]
  | cons e ms =>
    have hp := lines_len_pos e ms
    rw [if_pos hp, if_neg (List.cons_ne_nil e ms)]

/-- Witness for C8: with one live service `/test/x` (deadline 100) and one
expired `/test/y` (deadline 3) at time 5, the reply lists `/test/x` only. -/
theorem handle_service_list_spec_witness :
    nameLeads acServicesPfx ["autoconfig", "services"] = true ∧
    handleServiceList exListState 5 ["autoconfig", "services"] =
      serviceListSpecReply exListState 5 ["autoconfig", "services"] ∧
    handleServiceList exListState 5 ["autoconfig", "services"] =
      .content ["autoconfig", "services"] (some "/test/x\n") :=
  ⟨by decide,
   handle_service_list_spec exListState 5 ["autoconfig", "services"] (by decide),
   by decide⟩

/-- If the first known-service entry for a name sits at a different
address, the registration scan reports a duplicate. -/
theorem scan_dup_of_lookup (srvname : NameC) (addr : String × Nat) (now : Nat)
    (ks : List SrvEntry) :
    ∀ ent : SrvEntry, lookupSrv ks srvname = some ent → ent.addr ≠ addr →
      scanServices srvname addr now ks = .dup := by
  induction ks with
  | nil => intro ent h _; simp [lookupSrv] at h
  | cons e es ih =>
    intro ent h hne
    simp only [lookupSrv] at h
    by_cases hs : e.srv = srvname
    · rw [List.find?_cons_of_pos _ (by simp [hs])] at h
      have he : ent = e := (Option.some_inj.mp h).symm
      subst he
      simp [scanServices, hs, hne]
    · rw [List.find?_cons_of_neg _ (by simp [hs])] at h
      have h' : lookupSrv es srvname = some ent := h
      simp [scanServices, hs, ih ent h' hne]

/-- C4: a service-registration Interest for a name outside every configured
registration prefix is answered `Nack(NO_ROUTE)`, and one for a service
known at a different remote address is answered `Nack(DUPLICATE)`; both
Nacks carry the Interest attached, and the state (FIB, face table,
known-service list) is returned unchanged. -/
theorem registration_failure_nacks :
    ∀ (s : AcState) (now : Nat) (iname : NameC) (remote : String) (addr : String × Nat),
      iname.get? 2 = some remote → parseRemote remote = some addr →
      (((s.regPfxs.filter fun p => p.length = 0 || nameLeads p (iname.drop 3)).length = 0 →
          handleServiceRegistration s now iname =
            some (s, .nack iname .noRoute (some iname))) ∧
        (∀ ent : SrvEntry,
          (s.regPfxs.filter fun p => p.length = 0 || nameLeads p (iname.drop 3)).length ≠ 0 →
          lookupSrv s.known (iname.drop 3) = some ent → ent.addr ≠ addr →
          handleServiceRegistration s now iname =
            some (s, .nack iname .dup (some iname)))) := by
  intro s now iname remote addr hget hparse
  constructor
  · intro hnone
    simp only [handleServiceRegistration, hget, hparse]
    rw [if_pos hnone]
  · intro ent hsome hlook hne
    have hd := scan_dup_of_lookup (iname.drop 3) addr now s.known ent hlook hne
    simp only [handleServiceRegistration, hget, hparse, hd]
    rw [if_neg hsome]

/-- Witness for C4: `/test/srv` gets `Nack(NO_ROUTE)` when only `/other` is
registrable, and `Nack(DUPLICATE)` when already known at `10.0.0.1:7`. -/
theorem registration_failure_nacks_witness :
    handleServiceRegistration exNoRouteState 5 exRegName =
      some (exNoRouteState, .nack exRegName .noRoute (some exRegName)) ∧
    handleServiceRegistration exDupState 5 exRegName =
      some (exDupState, .nack exRegName .dup (some exRegName)) :=
  ⟨(registration_failure_nacks exNoRouteState 5 exRegName ("127.0.0.1:9000")
      ("127.0.0.1", 9000) (by decide) (by decide)).1 (by decide),
   (registration_failure_nacks exDupState 5 exRegName ("127.0.0.1:9000")
      ("127.0.0.1", 9000) (by decide) (by decide)).2
      ⟨["test", "srv"], ("10.0.0.1", 7), 999⟩ (by decide) (by decide) (by decide)⟩

/-- A true `lexLt` implies `<=` on the distance component. -/
theorem lexLt_fst_le (a b : Nat × Option Nat) (h : lexLt a b = true) : a.1 ≤ b.1 := by
  rcases Bool.or_eq_true _ _ |>.mp h with h1 | h2
  · exact Nat.le_of_lt (of_decide_eq_true h1)
  · exact Nat.le_of_eq (of_decide_eq_true (Bool.and_eq_true _ _ |>.mp h2).1)

/-- A false `lexLt` implies `>=` on the distance component. -/
theorem lexLt_fst_ge (a b : Nat × Option Nat) (h : lexLt a b = false) : b.1 ≤ a.1 := by
  have h1 : decide (a.1 < b.1) = false := by
    rcases Bool.or_eq_false_iff.mp h with ⟨h1, _⟩
    exact h1
  exact Nat.le_of_not_lt (of_decide_eq_false h1)

/-- The running Python `min` never exceeds the seed or any scanned
element on the distance component. -/
theorem pyMinAux_fst_le (l : List (Nat × Option Nat)) :
    ∀ best, (pyMinAux best l).1 ≤ best.1 ∧ ∀ x ∈ l, (pyMinAux best l).1 ≤ x.1 := by
  induction l with
  | nil =>
    intro best
    exact ⟨Nat.le_refl _, by intro x hx; cases hx⟩
  | cons x xs ih =>
    intro best
    have hb : (if lexLt x best then x else best).1 ≤ best.1 ∧
        (if lexLt x best then x else best).1 ≤ x.1 := by
      by_cases h : lexLt x best = true
      · rw [if_pos h]
        exact ⟨lexLt_fst_le x best h, Nat.le_refl _⟩
      · rw [if_neg h]
        exact ⟨Nat.le_refl _, lexLt_fst_ge x best (Bool.eq_false_iff.mpr h)⟩
    obtain ⟨ih1, ih2⟩ := ih (if lexLt x best then x else best)
    refine ⟨Nat.le_trans ?_ hb.1, ?_⟩
    · simpa only [pyMinAux] using ih1
    · intro y hy
      rcases List.mem_cons.mp hy with rfl | hy'
      · simpa only [pyMinAux] using Nat.le_trans ih1 hb.2
      · simpa only [pyMinAux] using ih2 y hy'

/-- The Python `min` of a non-empty pair list is `<=` every element on the
distance component. -/
theorem pyMinPr_fst_le (l : List (Nat × Option Nat)) (x : Nat × Option Nat) (hx : x ∈ l) :
    (pyMinPr l).1 ≤ x.1 := by
  cases l with
  | nil => cases hx
  | cons h t =>
    rcases List.mem_cons.mp hx with rfl | hx'
    · exact (pyMinAux_fst_le t x).1
    · exact (pyMinAux_fst_le t h).2 x hx'

/-- Every face id collected by the `subfids` fold stems from the
accumulator or from some candidate entry. -/
theorem distinct_fold_sub (l : List Entry) :
    ∀ (acc : List Nat) (x : Nat),
      x ∈ l.foldl (fun acc e => if e.fid ∈ acc then acc else acc ++ [e.fid]) acc →
      x ∈ acc ∨ ∃ e ∈ l, e.fid = x := by
  induction l with
  | nil => intro acc x h; exact Or.inl h
  | cons e es ih =>
    intro acc x h
    rcases ih _ x h with hacc | ⟨e', he', hf⟩
    · have hacc' : x ∈ if e.fid ∈ acc then acc else acc ++ [e.fid] := hacc
      by_cases hin : e.fid ∈ acc
      · rw [if_pos hin] at hacc'
        exact Or.inl hacc'
      · rw [if_neg hin] at hacc'
        rcases List.mem_append.mp hacc' with h1 | h2
        · exact Or.inl h1
        · exact Or.inr ⟨e, List.mem_cons_self e es, (List.mem_singleton.mp h2).symm⟩
    · exact Or.inr ⟨e', List.mem_cons_of_mem e he', hf⟩

/-- Every face id appearing in the candidate list survives into its
`subfids` fold. -/
theorem distinct_fold_mem (l : List Entry) :
    ∀ (acc : List Nat) (x : Nat), (x ∈ acc ∨ ∃ e ∈ l, e.fid = x) →
      x ∈ l.foldl (fun acc e => if e.fid ∈ acc then acc else acc ++ [e.fid]) acc := by
  induction l with
  | nil =>
    intro acc x h
    rcases h with h | ⟨e, he, _⟩
    · exact h
    · cases he
  | cons e es ih =>
    intro acc x h
    apply ih
    have hstep : ∀ y ∈ acc, y ∈ (if e.fid ∈ acc then acc else acc ++ [e.fid]) := by
      intro y hy
      by_cases hin : e.fid ∈ acc
      · rwa [if_pos hin]
      · rw [if_neg hin]
        exact List.mem_append_left _ hy
    rcases h with hacc | ⟨e', he', hf⟩
    · exact Or.inl (hstep x hacc)
    · rcases List.mem_cons.mp he' with rfl | hes
      · left
        show x ∈ if e'.fid ∈ acc then acc else acc ++ [e'.fid]
        by_cases hin : e'.fid ∈ acc
        · rw [if_pos hin, ← hf]
          exact hin
        · rw [if_neg hin, ← hf]
          exact List.mem_append_right _ (List.mem_singleton.mpr rfl)
      · exact Or.inr ⟨e', hes, hf⟩

/-- If `subfids` is the singleton `[f]`, every candidate has face id `f`. -/
theorem distinctFids_single (l : List Entry) (f : Nat) (h : distinctFids l = [f]) :
    ∀ e ∈ l, e.fid = f := by
  intro e he
  have hm : e.fid ∈ distinctFids l :=
    distinct_fold_mem l [] e.fid (Or.inr ⟨e, he, rfl⟩)
  rw [h] at hm
  exact List.mem_singleton.mp hm

/-- A completed (non-raising) `min` scan computes the same result as the
totalised scan. -/
theorem pyMinScanE_ok (l : List (Nat × Option Nat)) :
    ∀ (best p : Nat × Option Nat), pyMinScanE best l = some p → pyMinAux best l = p := by
  induction l with
  | nil =>
    intro best p h
    simp only [pyMinScanE, Option.some_inj] at h
    simpa [pyMinAux] using h
  | cons x xs ih =>
    intro best p h
    simp only [pyMinScanE] at h
    by_cases hr : pyLtRaises x best = true
    · rw [if_pos hr] at h
      cases h
    · rw [if_neg hr] at h
      simp only [pyMinAux]
      exact ih _ p h

/-- A completed (non-raising) line-91 `min` equals the totalised `min`. -/
theorem pyMinE_ok (l : List (Nat × Option Nat)) (p : Nat × Option Nat)
    (h : pyMinE l = some p) : pyMinPr l = p := by
  cases l with
  | nil => simp [pyMinE] at h
  | cons x xs =>
    simp only [pyMinE] at h
    simpa [pyMinPr] using pyMinScanE_ok xs x p h

/-- C2 counterexample: after inserting `(/a/b, F1, 1, None)` and
`(/a/c, F1, 1, t)`, the candidate list at `/a` has exactly one distinct
face id and two entries, yet the line-91 `min` compares the `None` timeout
with the dated one at equal distances and raises `TypeError`: `collapse()`
crashes and emits nothing instead of the aggregate tuple the claim
demands. -/
theorem collapse_single_face_raise_cex :
    distinctFids (candidatesOf ["a"] true []
        [⟨["b"], 1, 1, none⟩, ⟨["c"], 1, 1, some 7⟩]) = [1] ∧
    1 < (candidatesOf ["a"] true [] [⟨["b"], 1, 1, none⟩, ⟨["c"], 1, 1, some 7⟩]).length ∧
    collapseStepE ["a"] true [] false [⟨["b"], 1, 1, none⟩, ⟨["c"], 1, 1, some 7⟩] = none ∧
    collapseRootE true ribMix = none :=
  ⟨by decide, by decide, by decide, by decide⟩

/-- C2 (amended): when the combined candidate list of a node with children
holds more than one entry, exactly one distinct face id, and the line-91
`min` over its `(distance, timeout)` pairs completes without raising,
`collapse` emits the single tuple `(P, face, min distance, corresponding
timeout)` for the node's own name, the distance being minimal among all
candidates; in particular, after inserting `(/a/b, F1, 1)` and
`(/a/c, F1, 1)` (both timeouts `None`), `collapse()` yields exactly
`[(/a, F1, 1, None)]`. -/
theorem collapse_single_face_aggregates :
    (∀ (nclist : List String) (shortest : Bool) (dv : List DVEntry)
        (chres0 : List Entry) (f : Nat) (p : Nat × Option Nat),
      distinctFids (candidatesOf nclist shortest dv chres0) = [f] →
      1 < (candidatesOf nclist shortest dv chres0).length →
      pyMinE (((candidatesOf nclist shortest dv chres0).filter (fun e => e.fid = f)).map
        fun e => (e.dist, e.timeout)) = some p →
      collapseStepE nclist shortest dv false chres0 = some [⟨nclist, f, p.1, p.2⟩] ∧
        ∀ e ∈ candidatesOf nclist shortest dv chres0, p.1 ≤ e.dist) ∧
    collapseRootE true rib2 = some [⟨["a"], 1, 1, none⟩] := by
  constructor
  · intro nclist shortest dv chres0 f p hfids hlen hmin
    constructor
    · simp only [collapseStepE, Bool.false_eq_true, if_false, hfids]
      rw [if_pos hlen, hmin]
    · intro e he
      have hf : e.fid = f := distinctFids_single _ f hfids e he
      have hmem : (e.dist, e.timeout) ∈
          ((candidatesOf nclist shortest dv chres0).filter fun x => x.fid = f).map
            fun x => (x.dist, x.timeout) :=
        List.mem_map.mpr ⟨e, List.mem_filter.mpr ⟨he, by simp [hf]⟩, rfl⟩
      rw [← pyMinE_ok _ p hmin]
      exact pyMinPr_fst_le _ _ hmem
  · decide

/-- Witness for C2: the candidate list of the node `/a` of the example tree
(children `/a/b -> F1` and `/a/c -> F1`, both untimed, so the `min`
completes) aggregates to the single tuple `(/a, F1, 1, None)`. -/
theorem collapse_single_face_aggregates_witness :
    distinctFids (candidatesOf ["a"] true []
        [⟨["b"], 1, 1, none⟩, ⟨["c"], 1, 1, none⟩]) = [1] ∧
    1 < (candidatesOf ["a"] true [] [⟨["b"], 1, 1, none⟩, ⟨["c"], 1, 1, none⟩]).length ∧
    pyMinE (((candidatesOf ["a"] true [] [⟨["b"], 1, 1, none⟩, ⟨["c"], 1, 1, none⟩]).filter
        (fun e => e.fid = 1)).map fun e => (e.dist, e.timeout)) = some (1, none) ∧
    collapseStepE ["a"] true [] false [⟨["b"], 1, 1, none⟩, ⟨["c"], 1, 1, none⟩] =
      some [⟨["a"], 1, 1, none⟩] :=
  ⟨by decide, by decide, by decide,
   (collapse_single_face_aggregates.1 ["a"] true []
      [⟨["b"], 1, 1, none⟩, ⟨["c"], 1, 1, none⟩] 1 (1, none) (by decide) (by decide)
      (by decide)).1⟩

/-- `_get_best_fid` returns an entry whose face id matches when every
scanned entry matches. -/
theorem bestDVE_fid (f : Nat) :
    ∀ (es : List DVEntry) (b : DVEntry), b.fid = f → (∀ x ∈ es, x.fid = f) →
      (bestDVE b es).fid = f := by
  intro es
  induction es with
  | nil => intro b hb _; exact hb
  | cons x xs ih =>
    intro b hb hall
    simp only [bestDVE]
    apply ih
    · by_cases h : x.dist < b.dist
      · rw [if_pos h]
        exact hall x (List.mem_cons_self x xs)
      · rw [if_neg h]
        exact hb
    · intro y hy
      exact hall y (List.mem_cons_of_mem _ hy)

/-- A node's own contributed entries inherit the single face id. -/
theorem dvEntries_fid (f : Nat) (nclist : List String) (shortest : Bool)
    (dv : List DVEntry) (h : allFidDV f dv = true) :
    ∀ e ∈ dvEntries nclist shortest dv, e.fid = f := by
  cases dv with
  | nil => intro e he; simp [dvEntries] at he
  | cons d ds =>
    rw [allFidDV, List.all_eq_true] at h
    have hd : d.fid = f := of_decide_eq_true (h d (List.mem_cons_self d ds))
    have hds : ∀ x ∈ ds, x.fid = f := fun x hx =>
      of_decide_eq_true (h x (List.mem_cons_of_mem _ hx))
    intro e he
    simp only [dvEntries] at he
    cases shortest with
    | true =>
      rw [if_pos rfl] at he
      rcases List.mem_singleton.mp he with rfl
      exact bestDVE_fid f ds d hd hds
    | false =>
      rw [if_neg (by simp)] at he
      rcases List.mem_map.mp he with ⟨d', hd', rfl⟩
      rcases List.mem_cons.mp hd' with rfl | hmem
      · exact hd
      · exact hds d' hmem

/-- All candidates of a node inherit the single face id. -/
theorem candidatesOf_fid (f : Nat) (nclist : List String) (shortest : Bool)
    (dv : List DVEntry) (chres0 : List Entry)
    (hch : ∀ e ∈ chres0, e.fid = f) (hdv : allFidDV f dv = true) :
    ∀ e ∈ candidatesOf nclist shortest dv chres0, e.fid = f := by
  intro e he
  rcases List.mem_append.mp he with h1 | h2
  · rcases List.mem_map.mp h1 with ⟨e0, he0, rfl⟩
    exact hch e0 he0
  · exact dvEntries_fid f nclist shortest dv hdv e h2

/-- The per-node `collapse` body emits only entries with the single face
id when all its inputs carry it. -/
theorem collapseStep_fid (f : Nat) (nclist : List String) (shortest : Bool)
    (dv : List DVEntry) (ce : Bool) (chres0 : List Entry)
    (hch : ∀ e ∈ chres0, e.fid = f) (hdv : allFidDV f dv = true) :
    ∀ e ∈ collapseStep nclist shortest dv ce chres0, e.fid = f := by
  intro e he
  have hcand := candidatesOf_fid f nclist shortest dv chres0 hch hdv
  cases ce with
  | true =>
    simp only [collapseStep, if_pos rfl] at he
    exact dvEntries_fid f nclist shortest dv hdv e he
  | false =>
    rcases hd : distinctFids (candidatesOf nclist shortest dv chres0) with _ | ⟨f0, fs⟩
    · simp only [collapseStep, Bool.false_eq_true, if_false, hd] at he
      exact hcand e he
    · cases fs with
      | nil =>
        simp only [collapseStep, Bool.false_eq_true, if_false, hd] at he
        by_cases hlen : 1 < (candidatesOf nclist shortest dv chres0).length
        · rw [if_pos hlen] at he
          rcases List.mem_singleton.mp he with rfl
          have hmem : f0 ∈ distinctFids (candidatesOf nclist shortest dv chres0) := by
            rw [hd]
            exact List.mem_singleton.mpr rfl
          rcases distinct_fold_sub _ [] f0 hmem with h0 | ⟨e', he', hf'⟩
          · cases h0
          · show f0 = f
            rw [← hf']
            exact hcand e' he'
        · rw [if_neg hlen] at he
          exact hcand e he
      | cons f1 fs' =>
        simp only [collapseStep, Bool.false_eq_true, if_false, hd] at he
        exact hcand e he

/-- All entries of a collapsed single-face forest carry that face id. -/
theorem collapseF_fid (f : Nat) (shortest : Bool) :
    ∀ fo : Forest, allFidF f fo = true → ∀ e ∈ collapseF shortest fo, e.fid = f := by
  intro fo
  induction fo with
  | nil =>
    intro _ e he
    simp [collapseF] at he
  | node nc dv ch sib ihch ihsib =>
    intro hall e he
    simp only [allFidF, Bool.and_eq_true] at hall
    simp only [collapseF] at he
    rcases List.mem_append.mp he with h1 | h2
    · exact collapseStep_fid f [nc] shortest dv (isNilF ch) (collapseF shortest ch)
        (ihch hall.1.2) hall.1.1 e h1
    · exact ihsib hall.2 e h2

/-- A single-face distance vector with distinct keys has at most one
entry. -/
theorem dv_len_le_one (f : Nat) (dv : List DVEntry)
    (h1 : allFidDV f dv = true) (h2 : dvKeysU dv = true) : dv.length ≤ 1 := by
  cases dv with
  | nil => simp
  | cons d ds =>
    cases ds with
    | nil => simp
    | cons d2 ds2 =>
      exfalso
      rw [allFidDV, List.all_eq_true] at h1
      have ha : d.fid = f := of_decide_eq_true (h1 d (by simp))
      have hb : d2.fid = f := of_decide_eq_true (h1 d2 (by simp))
      simp [dvKeysU, nodupNats, ha, hb] at h2

/-- A node's own contribution has at most one entry under the single-face
hypotheses. -/
theorem dvEntries_len_le_one (f : Nat) (nclist : List String) (shortest : Bool)
    (dv : List DVEntry) (h1 : allFidDV f dv = true) (h2 : dvKeysU dv = true) :
    (dvEntries nclist shortest dv).length ≤ 1 := by
  cases dv with
  | nil => simp [dvEntries]
  | cons d ds =>
    cases shortest with
    | true => simp [dvEntries]
    | false =>
      simp only [dvEntries, if_neg (by simp : ¬ (false : Bool) = true), List.length_map]
      exact dv_len_le_one f (d :: ds) h1 h2

/-- The `subfids` fold started at `[f]` stays `[f]` over same-face
candidates. -/
theorem distinct_fold_stay (f : Nat) :
    ∀ l : List Entry, (∀ e ∈ l, e.fid = f) →
      l.foldl (fun acc e => if e.fid ∈ acc then acc else acc ++ [e.fid]) [f] = [f] := by
  intro l
  induction l with
  | nil => intro _; rfl
  | cons e es ih =>
    intro h
    have he : e.fid = f := h e (List.mem_cons_self e es)
    simp only [List.foldl_cons]
    show List.foldl _ (if e.fid ∈ [f] then [f] else [f] ++ [e.fid]) es = [f]
    rw [if_pos (by simp [he])]
    exact ih fun x hx => h x (List.mem_cons_of_mem _ hx)

/-- The `subfids` of a non-empty same-face candidate list is exactly
`[f]`. -/
theorem distinctFids_allsame (f : Nat) (l : List Entry)
    (h : ∀ e ∈ l, e.fid = f) (hne : l ≠ []) : distinctFids l = [f] := by
  cases l with
  | nil => exact absurd rfl hne
  | cons e es =>
    have he : e.fid = f := h e (List.mem_cons_self e es)
    simp only [distinctFids, List.foldl_cons]
    show List.foldl _ (if e.fid ∈ ([] : List Nat) then [] else [] ++ [e.fid]) es = [f]
    rw [if_neg (by simp), List.nil_append, he]
    exact distinct_fold_stay f es fun x hx => h x (List.mem_cons_of_mem _ hx)

/-- The per-node `collapse` body emits at most one entry under the
single-face hypotheses: a candidate list of two or more entries with one
distinct face id is reduced to the aggregate prefix tuple. -/
theorem collapseStep_len_le_one (f : Nat) (nclist : List String) (shortest : Bool)
    (dv : List DVEntry) (ce : Bool) (chres0 : List Entry)
    (hch : ∀ e ∈ chres0, e.fid = f) (hdv : allFidDV f dv = true)
    (hu : dvKeysU dv = true) :
    (collapseStep nclist shortest dv ce chres0).length ≤ 1 := by
  cases ce with
  | true =>
    simp only [collapseStep, if_pos rfl]
    exact dvEntries_len_le_one f nclist shortest dv hdv hu
  | false =>
    have hcand := candidatesOf_fid f nclist shortest dv chres0 hch hdv
    by_cases hlen : 1 < (candidatesOf nclist shortest dv chres0).length
    · have hne : candidatesOf nclist shortest dv chres0 ≠ [] := by
        intro h0
        rw [h0] at hlen
        simp at hlen
      have hd := distinctFids_allsame f _ hcand hne
      simp only [collapseStep, Bool.false_eq_true, if_false, hd]
      rw [if_pos hlen]
      simp
    · have hle : (candidatesOf nclist shortest dv chres0).length ≤ 1 := Nat.not_lt.mp hlen
      rcases hd : distinctFids (candidatesOf nclist shortest dv chres0) with _ | ⟨f0, fs⟩
      · simp only [collapseStep, Bool.false_eq_true, if_false, hd]
        exact hle
      · cases fs with
        | nil =>
          simp only [collapseStep, Bool.false_eq_true, if_false, hd]
          rw [if_neg hlen]
          exact hle
        | cons f1 fs' =>
          simp only [collapseStep, Bool.false_eq_true, if_false, hd]
          exact hle

/-- `collapse()` of a single-face tree returns at most one entry. -/
theorem collapseRoot_len_le_one (shortest : Bool) (f : Nat) (r : RIBRoot)
    (hdv : allFidDV f r.dv = true) (hu : dvKeysU r.dv = true)
    (hch : allFidF f r.children = true) :
    (collapseRoot shortest r).length ≤ 1 := by
  rw [collapseRoot]
  exact collapseStep_len_le_one f [] shortest r.dv (isNilF r.children)
    (collapseF shortest r.children) (collapseF_fid f shortest r.children hch) hdv hu

/-- A list of at most one entry is trivially prefix-minimal. -/
theorem pfxMinimal_of_len (l : List Entry) (h : l.length ≤ 1) : pfxMinimal l = true := by
  cases l with
  | nil => rfl
  | cons e es =>
    cases es with
    | nil => simp [pfxMinimal, strictPfxOf]
    | cons e2 es2 => simp at h

/-- Re-inserting with the same face id keeps a same-face distance
vector. -/
theorem dvSet_allFid (f : Nat) (dv : List DVEntry) (d : Nat) (t : Option Nat)
    (h : allFidDV f dv = true) : allFidDV f (dvSet dv f d t) = true := by
  cases dv with
  | nil => simp [dvSet, allFidDV]
  | cons e es =>
    rw [allFidDV, List.all_cons, Bool.and_eq_true] at h
    have he : e.fid = f := of_decide_eq_true h.1
    simp only [dvSet, if_pos he]
    rw [allFidDV, List.all_cons, Bool.and_eq_true]
    exact ⟨by simp, h.2⟩

/-- Re-inserting with the same face id keeps the dict keys distinct. -/
theorem dvSet_keysU (f : Nat) (dv : List DVEntry) (d : Nat) (t : Option Nat)
    (hall : allFidDV f dv = true) (hu : dvKeysU dv = true) :
    dvKeysU (dvSet dv f d t) = true := by
  cases dv with
  | nil => simp [dvSet, dvKeysU, nodupNats]
  | cons e es =>
    rw [allFidDV, List.all_cons, Bool.and_eq_true] at hall
    have he : e.fid = f := of_decide_eq_true hall.1
    simp only [dvSet, if_pos he]
    rw [dvKeysU] at hu ⊢
    simpa [he] using hu

/-- A freshly created node chain carries only the inserted face id. -/
theorem chain_allFid (f : Nat) :
    ∀ (rest : List String) (c : String) (d : Nat) (t : Option Nat),
      allFidF f (chain c rest f d t) = true := by
  intro rest
  induction rest with
  | nil => intro c d t; simp [chain, allFidF, allFidDV]
  | cons c2 rest2 ih => intro c d t; simp [chain, allFidF, allFidDV, ih c2]

/-- A freshly created node chain has distinct dict keys everywhere. -/
theorem chain_keysU :
    ∀ (rest : List String) (c : String) (f d : Nat) (t : Option Nat),
      dvUF (chain c rest f d t) = true := by
  intro rest
  induction rest with
  | nil => intro c f d t; simp [chain, dvUF, dvKeysU, nodupNats]
  | cons c2 rest2 ih => intro c f d t; simp [chain, dvUF, dvKeysU, nodupNats, ih c2]

/-- Same-face insertion into a child dict keeps all nodes same-face. -/
theorem insertIntoChildren_allFid (f : Nat) :
    ∀ fo : Forest, allFidF f fo = true →
      ∀ (c : String) (rest : List String) (d : Nat) (t : Option Nat),
        allFidF f (insertIntoChildren fo c rest f d t) = true := by
  intro fo
  induction fo with
  | nil =>
    intro _ c rest d t
    simp only [insertIntoChildren]
    exact chain_allFid f rest c d t
  | node nc dv ch sib ihch ihsib =>
    intro h c rest d t
    simp only [allFidF, Bool.and_eq_true] at h
    simp only [insertIntoChildren]
    by_cases hnc : nc = c
    · rw [if_pos hnc]
      cases rest with
      | nil =>
        simp only [allFidF, Bool.and_eq_true]
        exact ⟨⟨dvSet_allFid f dv d t h.1.1, h.1.2⟩, h.2⟩
      | cons c2 rest2 =>
        simp only [allFidF, Bool.and_eq_true]
        exact ⟨⟨h.1.1, ihch h.1.2 c2 rest2 d t⟩, h.2⟩
    · rw [if_neg hnc]
      simp only [allFidF, Bool.and_eq_true]
      exact ⟨⟨h.1.1, h.1.2⟩, ihsib h.2 c rest d t⟩

/-- A root-level `insert` with face id `f` preserves the single-face and
key-distinctness invariants. -/
theorem insertRoot_pres (f : Nat) (r : RIBRoot) (name : List String) (d : Nat)
    (t : Option Nat) (h1 : allFidDV f r.dv = true) (h2 : dvKeysU r.dv = true)
    (h3 : allFidF f r.children = true) :
    allFidDV f (insertRoot r name f d t).dv = true ∧
    dvKeysU (insertRoot r name f d t).dv = true ∧
    allFidF f (insertRoot r name f d t).children = true := by
  cases name with
  | nil =>
    refine ⟨?_, ?_, ?_⟩
    · simpa [insertRoot] using dvSet_allFid f r.dv d t h1
    · simpa [insertRoot] using dvSet_keysU f r.dv d t h1 h2
    · simpa [insertRoot] using h3
  | cons c rest =>
    refine ⟨?_, ?_, ?_⟩
    · simpa [insertRoot] using h1
    · simpa [insertRoot] using h2
    · simpa [insertRoot] using insertIntoChildren_allFid f r.children h3 c rest d t

/-- Any sequence of same-face insertions preserves the invariants from any
invariant-satisfying tree. -/
theorem foldl_inserts_pres (f : Nat) :
    ∀ (l : List (List String × Nat × Option Nat)) (r : RIBRoot),
      allFidDV f r.dv = true → dvKeysU r.dv = true → allFidF f r.children = true →
      allFidDV f (l.foldl (fun r i => insertRoot r i.1 f i.2.1 i.2.2) r).dv = true ∧
      dvKeysU (l.foldl (fun r i => insertRoot r i.1 f i.2.1 i.2.2) r).dv = true ∧
      allFidF f (l.foldl (fun r i => insertRoot r i.1 f i.2.1 i.2.2) r).children = true := by
  intro l
  induction l with
  | nil => intro r h1 h2 h3; exact ⟨h1, h2, h3⟩
  | cons i is ih =>
    intro r h1 h2 h3
    obtain ⟨g1, g2, g3⟩ := insertRoot_pres f r i.1 i.2.1 i.2.2 h1 h2 h3
    simpa only [List.foldl_cons] using ih (insertRoot r i.1 f i.2.1 i.2.2) g1 g2 g3

/-- C1 (amended): for every sequence of RIB insertions all carrying the
same face id, the subsequent `collapse()` output is prefix-minimal — the
whole tree aggregates to at most a single tuple, so no entry's name can be
a strict prefix of another's with the same face. -/
theorem collapse_single_face_insertions_minimal (shortest : Bool) (f : Nat)
    (l : List (List String × Nat × Option Nat)) :
    pfxMinimal (collapseRoot shortest (applyInserts f l)) = true := by
  obtain ⟨h1, h2, h3⟩ := foldl_inserts_pres f l emptyRoot rfl rfl rfl
  exact pfxMinimal_of_len _ (collapseRoot_len_le_one shortest f _ h1 h2 h3)

end PiCN
